import Mathlib

/-!
Shallow embedding of the memory subsystem of the feo3boy Game Boy emulator
(`src/memdev.rs`): the address type, the memory-device operations of each
backing device, the MBC1 cartridge controller and the top-level `GbMmu`
address decoder.  Bytes are modelled as `Nat` (u8 values), addresses as
`Nat` (u16 values), and fallible operations (Rust panics / fatal
assertions) return `Option`: `none` models a panic.
-/

/-- Address carrying both the raw address and the device-relative address,
mirroring `struct Addr`. -/
structure Addr where
  raw : Nat
  relative : Nat
deriving DecidableEq, Repr

/-- Construction from a raw address (`impl From<u16> for Addr`): both fields
start equal. -/
def Addr.ofRaw (raw : Nat) : Addr := ⟨raw, raw⟩

/-- Index used by array devices (`Addr::index`): the relative address. -/
def Addr.index (a : Addr) : Nat := a.relative

/-- Re-offset the relative address (`Addr::offset_by`).  The Rust code
asserts `shift <= relative`; a violation is a panic, modelled as `none`. -/
def Addr.offset_by (a : Addr) (shift : Nat) : Option Addr :=
  if shift ≤ a.relative then some ⟨a.raw, a.relative - shift⟩ else none

/-- Read of a fixed-size byte array device (`impl MemDevice for [u8; N]`),
with the array stored as a function from index to byte.  Out-of-range
access panics (`none`). -/
def bytesRead (N : Nat) (mem : Nat → Nat) (addr : Addr) : Option Nat :=
  if addr.index < N then some (mem addr.index) else none

/-- Write of a fixed-size byte array device (`impl MemDevice for [u8; N]`).
Out-of-range access panics (`none`). -/
def bytesWrite (N : Nat) (mem : Nat → Nat) (addr : Addr) (value : Nat) :
    Option (Nat → Nat) :=
  if addr.index < N then some (Function.update mem addr.index value) else none

/-- Read through the read-only wrapper (`impl MemDevice for ReadOnly<M>`):
delegates to the inner read unchanged. -/
def ReadOnly.read {σ : Type} (innerRead : σ → Addr → Option Nat)
    (s : σ) (a : Addr) : Option Nat :=
  innerRead s a

/-- Write through the read-only wrapper: performs the inner read for its
bounds validation, then discards the value, leaving the state unchanged. -/
def ReadOnly.write {σ : Type} (innerRead : σ → Addr → Option Nat)
    (s : σ) (a : Addr) (_value : Nat) : Option σ :=
  (innerRead s a).map (fun _ => s)

/-- State of the bios ROM (`BiosRom(ReadOnly<[u8; 0x100]>)`): 256 bytes of
content, stored as a function from index to byte. -/
def BiosRom : Type := Nat → Nat

/-- Read of the bios ROM: delegates through the read-only wrapper to the
256-byte array device. -/
def BiosRom.read (b : BiosRom) (addr : Addr) : Option Nat :=
  ReadOnly.read (bytesRead 0x100) b addr

/-- Write of the bios ROM: delegates through the read-only wrapper (bounds
check only, content never changes). -/
def BiosRom.write (b : BiosRom) (addr : Addr) (value : Nat) : Option BiosRom :=
  ReadOnly.write (bytesRead 0x100) b addr value

/-- Error for bios construction from a slice of the wrong size
(`BiosSizeError`), carrying the actual byte count. -/
structure BiosSizeError where
  len : Nat
deriving DecidableEq, Repr

/-- Construction of a `BiosRom` from a byte slice
(`impl TryFrom<&[u8]> for BiosRom`): fails with the actual length unless it
is exactly 256, otherwise copies the slice. -/
def BiosRom.try_from (data : List Nat) : Except BiosSizeError BiosRom :=
  if data.length ≠ 0x100 then Except.error ⟨data.length⟩
  else Except.ok (fun i => data.getD i 0)

/-- State of the MBC1 cartridge controller (`struct Mbc1Rom`).  The 128
read-only 16 KiB ROM banks and 4 mutable 8 KiB RAM banks are stored as
functions from bank index and offset to byte. -/
structure Mbc1Rom where
  rom_banks : Nat → Nat → Nat
  ram_banks : Nat → Nat → Nat
  has_ram : Bool
  ram_enable : Bool
  rom_bank : Nat
  bank_set : Nat
  ram_mode : Bool

/-- Effective ROM bank index (`Mbc1Rom::rom_bank`): low-order bits from the
`rom_bank` register, high-order bits from `bank_set << 5` unless in RAM
mode.  The shift is u8 arithmetic, hence the `% 256`. -/
def Mbc1Rom.romBankIdx (c : Mbc1Rom) : Nat :=
  let low_order := c.rom_bank
  let high_order := if c.ram_mode then 0 else (c.bank_set <<< 5) % 256
  high_order ||| low_order

/-- Effective RAM bank index (`Mbc1Rom::ram_bank`): `bank_set` in RAM mode,
otherwise bank 0. -/
def Mbc1Rom.ramBankIdx (c : Mbc1Rom) : Nat :=
  if c.ram_mode then c.bank_set else 0

/-- Read of the MBC1 controller (`impl MemDevice for Mbc1Rom::read`).
Indexing `rom_banks` (length 128) or `ram_banks` (length 4) out of range is
a Rust panic, modelled as `none`, as is an out-of-range relative address. -/
def Mbc1Rom.read (c : Mbc1Rom) (addr : Addr) : Option Nat :=
  if addr.relative ≤ 0x3fff then
    ReadOnly.read (bytesRead 16384) (c.rom_banks 0) addr
  else if addr.relative ≤ 0x7fff then
    if c.romBankIdx < 128 then
      (addr.offset_by 0x4000).bind
        (ReadOnly.read (bytesRead 16384) (c.rom_banks c.romBankIdx))
    else none
  else if addr.relative ≤ 0x9fff then
    if c.ram_enable then
      if c.ramBankIdx < 4 then
        (addr.offset_by 0x8000).bind (bytesRead 8192 (c.ram_banks c.ramBankIdx))
      else none
    else some 0
  else none

/-- Write of the MBC1 controller (`impl MemDevice for Mbc1Rom::write`):
register side effects below 0x8000, RAM data write at 0x8000–0x9fff. -/
def Mbc1Rom.write (c : Mbc1Rom) (addr : Addr) (value : Nat) : Option Mbc1Rom :=
  if addr.relative ≤ 0x1fff then
    some { c with ram_enable := c.has_ram && (value &&& 0xf == 0xa) }
  else if addr.relative ≤ 0x3fff then
    some { c with rom_bank := max (value &&& 0x1f) 1 }
  else if addr.relative ≤ 0x5fff then
    some { c with bank_set := value &&& 0x3 }
  else if addr.relative ≤ 0x7fff then
    some { c with ram_mode := c.has_ram && (value &&& 1 != 0) }
  else if addr.relative ≤ 0x9fff then
    if c.has_ram && c.ram_enable then
      if c.ramBankIdx < 4 then
        (addr.offset_by 0x8000).bind (fun a =>
          (bytesWrite 8192 (c.ram_banks c.ramBankIdx) a value).map (fun m =>
            { c with ram_banks := Function.update c.ram_banks c.ramBankIdx m }))
      else none
    else some c
  else none

/-- Cartridge selector (`enum Cartridge`): no cartridge, or an MBC1. -/
inductive Cartridge where
  | noCart : Cartridge
  | mbc1 : Mbc1Rom → Cartridge

/-- Read of the cartridge selector: `None` forwards to a 0x10000-byte null
ROM (bounds-checked zero reads), `Mbc1` forwards to the controller. -/
def Cartridge.read : Cartridge → Addr → Option Nat
  | Cartridge.noCart, addr => if addr.index < 0x10000 then some 0 else none
  | Cartridge.mbc1 c, addr => c.read addr

/-- Write of the cartridge selector: `None` forwards to the null ROM
(bounds-checked discard), `Mbc1` forwards to the controller. -/
def Cartridge.write : Cartridge → Addr → Nat → Option Cartridge
  | Cartridge.noCart, addr, _ =>
      if addr.index < 0x10000 then some Cartridge.noCart else none
  | Cartridge.mbc1 c, addr, value => (c.write addr value).map Cartridge.mbc1

/-- State of the memory-mapped IO block (`struct MemMappedIo`): only the
bios-enable latch. -/
structure MemMappedIo where
  bios_enabled : Bool
deriving DecidableEq, Repr

/-- Construction of the IO block (`MemMappedIo::new`): bios enabled. -/
def MemMappedIo.new : MemMappedIo := ⟨true⟩

/-- Read of the IO block: stub registers read 0xff, offset 0x50 reads the
latch as 0 or 1, anything past 0x7f panics. -/
def MemMappedIo.read (io : MemMappedIo) (addr : Addr) : Option Nat :=
  if addr.relative ≤ 0x4f then some 0xff
  else if addr.relative = 0x50 then some (if io.bios_enabled then 1 else 0)
  else if addr.relative ≤ 0x7f then some 0xff
  else none

/-- Write of the IO block: stub registers ignore writes, a write to offset
0x50 with bit 0 set clears the latch permanently. -/
def MemMappedIo.write (io : MemMappedIo) (addr : Addr) (value : Nat) :
    Option MemMappedIo :=
  if addr.relative ≤ 0x4f then some io
  else if addr.relative = 0x50 then
    some (if value &&& 1 != 0 then ⟨false⟩ else io)
  else if addr.relative ≤ 0x7f then some io
  else none

/-- State of the top-level address decoder (`struct GbMmu`). -/
structure GbMmu where
  bios : BiosRom
  cart : Cartridge
  vram : Nat → Nat
  wram : Nat → Nat
  oam : Nat → Nat
  io : MemMappedIo
  zram : Nat → Nat

/-- Construction of the decoder (`GbMmu::new`): given bios and cartridge,
all RAM regions zeroed, bios enabled. -/
def GbMmu.new (bios : BiosRom) (cart : Cartridge) : GbMmu :=
  { bios := bios, cart := cart, vram := fun _ => 0, wram := fun _ => 0,
    oam := fun _ => 0, io := MemMappedIo.new, zram := fun _ => 0 }

/-- Read of the top-level decoder (`impl MemDevice for GbMmu::read`).  The
leading test models the assertion that the address is unoffset; the final
`none` branch is unreachable for u16 addresses (the Rust match is
exhaustive over u16). -/
def GbMmu.read (s : GbMmu) (addr : Addr) : Option Nat :=
  if addr.relative ≠ addr.raw then none
  else if addr.relative ≤ 0xff ∧ s.io.bios_enabled = true then s.bios.read addr
  else if addr.relative ≤ 0x7fff then s.cart.read addr
  else if addr.relative ≤ 0x9fff then
    (addr.offset_by 0x8000).bind (bytesRead 0x2000 s.vram)
  else if addr.relative ≤ 0xbfff then
    (addr.offset_by 0x2000).bind s.cart.read
  else if addr.relative ≤ 0xdfff then
    (addr.offset_by 0xc000).bind (bytesRead 0x2000 s.wram)
  else if addr.relative ≤ 0xfdff then
    (addr.offset_by 0xe000).bind (bytesRead 0x2000 s.wram)
  else if addr.relative ≤ 0xfe9f then
    (addr.offset_by 0xfe00).bind (bytesRead 160 s.oam)
  else if addr.relative ≤ 0xfeff then some 0
  else if addr.relative ≤ 0xff7f then
    (addr.offset_by 0xff00).bind s.io.read
  else if addr.relative ≤ 0xfffe then
    (addr.offset_by 0xff80).bind (bytesRead 127 s.zram)
  else if addr.relative = 0xffff then some 0
  else none

/-- Write of the top-level decoder (`impl MemDevice for GbMmu::write`),
with the same dispatch shape as the read. -/
def GbMmu.write (s : GbMmu) (addr : Addr) (value : Nat) : Option GbMmu :=
  if addr.relative ≠ addr.raw then none
  else if addr.relative ≤ 0xff ∧ s.io.bios_enabled = true then
    (s.bios.write addr value).map (fun b => { s with bios := b })
  else if addr.relative ≤ 0x7fff then
    (s.cart.write addr value).map (fun c => { s with cart := c })
  else if addr.relative ≤ 0x9fff then
    ((addr.offset_by 0x8000).bind (fun a => bytesWrite 0x2000 s.vram a value)).map
      (fun m => { s with vram := m })
  else if addr.relative ≤ 0xbfff then
    ((addr.offset_by 0x2000).bind (fun a => s.cart.write a value)).map
      (fun c => { s with cart := c })
  else if addr.relative ≤ 0xdfff then
    ((addr.offset_by 0xc000).bind (fun a => bytesWrite 0x2000 s.wram a value)).map
      (fun m => { s with wram := m })
  else if addr.relative ≤ 0xfdff then
    ((addr.offset_by 0xe000).bind (fun a => bytesWrite 0x2000 s.wram a value)).map
      (fun m => { s with wram := m })
  else if addr.relative ≤ 0xfe9f then
    ((addr.offset_by 0xfe00).bind (fun a => bytesWrite 160 s.oam a value)).map
      (fun m => { s with oam := m })
  else if addr.relative ≤ 0xfeff then some s
  else if addr.relative ≤ 0xff7f then
    ((addr.offset_by 0xff00).bind (fun a => s.io.write a value)).map
      (fun io2 => { s with io := io2 })
  else if addr.relative ≤ 0xfffe then
    ((addr.offset_by 0xff80).bind (fun a => bytesWrite 127 s.zram a value)).map
      (fun m => { s with zram := m })
  else if addr.relative = 0xffff then some s
  else none

/-- Sequence of writes applied in order; fails if any single write fails. -/
def GbMmu.writeMany (s : GbMmu) : List (Nat × Nat) → Option GbMmu
  | [] => some s
  | (a, v) :: rest => (s.write (Addr.ofRaw a) v).bind (fun s2 => s2.writeMany rest)

/-- Well-formedness of the MBC1 register file, per the data model: the
`rom_bank` register is a 5-bit value clamped to 1..=31 and `bank_set` is a
2-bit value.  Every register write re-establishes these bounds. -/
def Mbc1Rom.WF (c : Mbc1Rom) : Prop :=
  1 ≤ c.rom_bank ∧ c.rom_bank < 32 ∧ c.bank_set < 4

/-- Well-formedness of a cartridge: trivial for no cartridge, the register
bounds for MBC1. -/
def Cartridge.WF : Cartridge → Prop
  | Cartridge.noCart => True
  | Cartridge.mbc1 c => c.WF

/-- Well-formedness of a decoder state: its cartridge is well-formed. -/
def GbMmu.WF (s : GbMmu) : Prop := s.cart.WF

example : (GbMmu.new (fun i => i + 3) Cartridge.noCart).read (Addr.ofRaw 5)
    = some 8 := by decide
example : (GbMmu.new (fun i => i + 3) Cartridge.noCart).read (Addr.ofRaw 0x150)
    = some 0 := by decide
example : (GbMmu.new (fun i => i + 3) Cartridge.noCart).read (Addr.ofRaw 0xff50)
    = some 1 := by decide
example : ((GbMmu.new (fun i => i + 3) Cartridge.noCart).write (Addr.ofRaw 0xff50) 1).bind
    (fun s => s.read (Addr.ofRaw 5)) = some 0 := by decide

/-! Concrete sample states used by witnesses. -/

/-- Sample bios content: byte `i` is `(i + 1) % 256`. -/
def sampleBios : BiosRom := fun i => (i + 1) % 256

/-- Sample MBC1 cartridge with RAM support, bank contents that encode the
bank index, and registers in their documented ranges. -/
def sampleCart : Mbc1Rom :=
  { rom_banks := fun bank off => (bank + off) % 256
  , ram_banks := fun _ _ => 0
  , has_ram := true
  , ram_enable := false
  , rom_bank := 1
  , bank_set := 0
  , ram_mode := false }

/-- Sample decoder state: sample bios with the sample MBC1 cartridge. -/
def sampleMmu : GbMmu := GbMmu.new sampleBios (Cartridge.mbc1 sampleCart)

/-- C7: constructing a `BiosRom` from a byte slice fails with a
`BiosSizeError` carrying the actual length whenever the length is not 256,
and succeeds for a 256-byte slice, after which reading relative address `i`
returns byte `i` of the input. -/
theorem biosrom_try_from_spec (data : List Nat) :
    (data.length ≠ 0x100 →
      BiosRom.try_from data = Except.error ⟨data.length⟩) ∧
    (data.length = 0x100 → ∃ b, BiosRom.try_from data = Except.ok b ∧
      ∀ i, i < 0x100 → BiosRom.read b (Addr.ofRaw i) = some (data.getD i 0)) := by
  constructor
  · intro h
    simp [BiosRom.try_from, h]
  · intro h
    refine ⟨fun i => data.getD i 0, ?_, ?_⟩
    · simp [BiosRom.try_from, h]
    · intro i hi
      simp [BiosRom.read, ReadOnly.read, bytesRead, Addr.ofRaw, Addr.index, hi]

set_option maxRecDepth 4000 in
/-- Witness for C7 at concrete buffers of length 255, 257 and 256. -/
theorem biosrom_try_from_spec_witness :
    ((List.replicate 255 0).length ≠ 0x100 ∧
      BiosRom.try_from (List.replicate 255 0) = Except.error ⟨255⟩) ∧
    ((List.replicate 257 0).length ≠ 0x100 ∧
      BiosRom.try_from (List.replicate 257 0) = Except.error ⟨257⟩) ∧
    ((List.replicate 0x100 9).length = 0x100 ∧
      ∃ b, BiosRom.try_from (List.replicate 0x100 9) = Except.ok b ∧
        ∀ i, i < 0x100 →
          BiosRom.read b (Addr.ofRaw i) = some ((List.replicate 0x100 9).getD i 0)) := by
  refine ⟨⟨by simp, ?_⟩, ⟨by simp, ?_⟩, ⟨by simp, ?_⟩⟩
  · simpa using (biosrom_try_from_spec (List.replicate 255 0)).1 (by simp)
  · simpa using (biosrom_try_from_spec (List.replicate 257 0)).1 (by simp)
  · exact (biosrom_try_from_spec (List.replicate 0x100 9)).2 (by simp)

/-- C8: for any inner device, the read-only wrapper's read delegates to the
inner read unchanged, its write leaves the state unchanged (so every later
read returns the same byte), and its write fails exactly when the inner
read at that address fails. -/
theorem readonly_frame {σ : Type} (innerRead : σ → Addr → Option Nat)
    (s : σ) (a : Addr) (value : Nat) :
    ReadOnly.read innerRead s a = innerRead s a ∧
    (ReadOnly.write innerRead s a value = none ↔ innerRead s a = none) ∧
    (∀ s2, ReadOnly.write innerRead s a value = some s2 →
      s2 = s ∧ ∀ a2, ReadOnly.read innerRead s2 a2 = ReadOnly.read innerRead s a2) := by
  refine ⟨rfl, ?_, ?_⟩
  · cases h : innerRead s a <;> simp [ReadOnly.write, h]
  · intro s2 hw
    cases h : innerRead s a <;> simp [ReadOnly.write, h] at hw
    subst hw
    exact ⟨rfl, fun _ => rfl⟩

/-- Witness for C8 on a concrete 4-byte array device. -/
theorem readonly_frame_witness :
    ReadOnly.read (bytesRead 4) (fun _ => 7) (Addr.ofRaw 1)
        = bytesRead 4 (fun _ => 7) (Addr.ofRaw 1) ∧
    bytesRead 4 (fun _ => 7) (Addr.ofRaw 1) = some 7 ∧
    ReadOnly.write (bytesRead 4) (fun _ => 7) (Addr.ofRaw 1) 5 = some (fun _ => 7) :=
  ⟨(readonly_frame (bytesRead 4) (fun _ => 7) (Addr.ofRaw 1) 5).1, by decide, rfl⟩

/-- C10: while the bios is enabled, any write to raw addresses
0x0000–0x00ff leaves the whole decoder state unchanged; in particular the
cartridge (and its MBC1 RAM-enable register) is untouched. -/
theorem gbmmu_bios_write_noop (s : GbMmu) (h : s.io.bios_enabled = true)
    (a value : Nat) (ha : a ≤ 0xff) :
    s.write (Addr.ofRaw a) value = some s ∧
    ∀ s2, s.write (Addr.ofRaw a) value = some s2 → s2.cart = s.cart := by
  have hlt : a < 0x100 := by omega
  have hw : s.write (Addr.ofRaw a) value = some s := by
    simp [GbMmu.write, BiosRom.write, ReadOnly.write, bytesRead,
      Addr.ofRaw, Addr.index, h, ha, hlt]
  refine ⟨hw, ?_⟩
  intro s2 hs2
  rw [hw] at hs2
  cases hs2
  rfl

/-- Witness for C10: a RAM-enable-style write of 0x0a to address 0 of the
sample decoder is discarded. -/
theorem gbmmu_bios_write_noop_witness :
    sampleMmu.io.bios_enabled = true ∧ (0 : Nat) ≤ 0xff ∧
    sampleMmu.write (Addr.ofRaw 0) 0x0a = some sampleMmu :=
  ⟨by decide, by decide,
    (gbmmu_bios_write_noop sampleMmu (by decide) 0 0x0a (by decide)).1⟩

/-- Writing through the decoder at `0xc000 + o` updates working RAM cell
`o`. -/
lemma gbmmu_write_wram_lo (s : GbMmu) (o value : Nat) (ho : o < 0x2000) :
    s.write (Addr.ofRaw (0xc000 + o)) value
      = some { s with wram := Function.update s.wram o value } := by
  have h1 : ¬(0xc000 + o ≤ 0xff) := by omega
  have h2 : ¬(0xc000 + o ≤ 0x7fff) := by omega
  have h3 : ¬(0xc000 + o ≤ 0x9fff) := by omega
  have h4 : ¬(0xc000 + o ≤ 0xbfff) := by omega
  have h5 : 0xc000 + o ≤ 0xdfff := by omega
  have h6 : 0xc000 ≤ 0xc000 + o := by omega
  simp [GbMmu.write, Addr.ofRaw, Addr.offset_by, Addr.index, bytesWrite,
    h1, h2, h3, h4, h5, h6, ho, Nat.add_sub_cancel_left]

/-- Writing through the decoder at the mirror `0xe000 + o` updates working
RAM cell `o`. -/
lemma gbmmu_write_wram_hi (s : GbMmu) (o value : Nat) (ho : o < 0x1e00) :
    s.write (Addr.ofRaw (0xe000 + o)) value
      = some { s with wram := Function.update s.wram o value } := by
  have h1 : ¬(0xe000 + o ≤ 0xff) := by omega
  have h2 : ¬(0xe000 + o ≤ 0x7fff) := by omega
  have h3 : ¬(0xe000 + o ≤ 0x9fff) := by omega
  have h4 : ¬(0xe000 + o ≤ 0xbfff) := by omega
  have h5 : ¬(0xe000 + o ≤ 0xdfff) := by omega
  have h6 : 0xe000 + o ≤ 0xfdff := by omega
  have h7 : 0xe000 ≤ 0xe000 + o := by omega
  have h8 : o < 0x2000 := by omega
  simp [GbMmu.write, Addr.ofRaw, Addr.offset_by, Addr.index, bytesWrite,
    h1, h2, h3, h4, h5, h6, h7, h8, Nat.add_sub_cancel_left]

/-- Reading through the decoder at `0xc000 + o` returns working RAM cell
`o`. -/
lemma gbmmu_read_wram_lo (s : GbMmu) (o : Nat) (ho : o < 0x2000) :
    s.read (Addr.ofRaw (0xc000 + o)) = some (s.wram o) := by
  have h1 : ¬(0xc000 + o ≤ 0xff) := by omega
  have h2 : ¬(0xc000 + o ≤ 0x7fff) := by omega
  have h3 : ¬(0xc000 + o ≤ 0x9fff) := by omega
  have h4 : ¬(0xc000 + o ≤ 0xbfff) := by omega
  have h5 : 0xc000 + o ≤ 0xdfff := by omega
  have h6 : 0xc000 ≤ 0xc000 + o := by omega
  simp [GbMmu.read, Addr.ofRaw, Addr.offset_by, Addr.index, bytesRead,
    h1, h2, h3, h4, h5, h6, ho, Nat.add_sub_cancel_left]

/-- Reading through the decoder at the mirror `0xe000 + o` returns working
RAM cell `o`. -/
lemma gbmmu_read_wram_hi (s : GbMmu) (o : Nat) (ho : o < 0x1e00) :
    s.read (Addr.ofRaw (0xe000 + o)) = some (s.wram o) := by
  have h1 : ¬(0xe000 + o ≤ 0xff) := by omega
  have h2 : ¬(0xe000 + o ≤ 0x7fff) := by omega
  have h3 : ¬(0xe000 + o ≤ 0x9fff) := by omega
  have h4 : ¬(0xe000 + o ≤ 0xbfff) := by omega
  have h5 : ¬(0xe000 + o ≤ 0xdfff) := by omega
  have h6 : 0xe000 + o ≤ 0xfdff := by omega
  have h7 : 0xe000 ≤ 0xe000 + o := by omega
  have h8 : o < 0x2000 := by omega
  simp [GbMmu.read, Addr.ofRaw, Addr.offset_by, Addr.index, bytesRead,
    h1, h2, h3, h4, h5, h6, h7, h8, Nat.add_sub_cancel_left]

/-- C6: working RAM and its mirror address the same storage: a write at
`0xc000 + o` is read back at `0xe000 + o`, and vice versa, for every offset
`o ≤ 0x1dff` and every value. -/
theorem gbmmu_wram_mirror (s : GbMmu) (o value : Nat) (ho : o ≤ 0x1dff) :
    (∃ s2, s.write (Addr.ofRaw (0xc000 + o)) value = some s2 ∧
      s2.read (Addr.ofRaw (0xe000 + o)) = some value) ∧
    (∃ s2, s.write (Addr.ofRaw (0xe000 + o)) value = some s2 ∧
      s2.read (Addr.ofRaw (0xc000 + o)) = some value) := by
  constructor
  · refine ⟨_, gbmmu_write_wram_lo s o value (by omega), ?_⟩
    rw [gbmmu_read_wram_hi _ o (by omega)]
    simp
  · refine ⟨_, gbmmu_write_wram_hi s o value (by omega), ?_⟩
    rw [gbmmu_read_wram_lo _ o (by omega)]
    simp

/-- Witness for C6 at offset 0x10 and value 0xab on the sample decoder. -/
theorem gbmmu_wram_mirror_witness :
    (0x10 : Nat) ≤ 0x1dff ∧
    ((∃ s2, sampleMmu.write (Addr.ofRaw (0xc000 + 0x10)) 0xab = some s2 ∧
      s2.read (Addr.ofRaw (0xe000 + 0x10)) = some 0xab) ∧
    (∃ s2, sampleMmu.write (Addr.ofRaw (0xe000 + 0x10)) 0xab = some s2 ∧
      s2.read (Addr.ofRaw (0xc000 + 0x10)) = some 0xab)) :=
  ⟨by decide, gbmmu_wram_mirror sampleMmu 0x10 0xab (by decide)⟩

/-- Consistency of the MBC1 RAM registers: RAM can only be enabled if the
cartridge has RAM. -/
def Mbc1Rom.ramConsistent (c : Mbc1Rom) : Prop :=
  c.ram_enable = true → c.has_ram = true

/-- Fields preserved by every MBC1 write: `has_ram` never changes, and
`ram_enable` is either untouched or recomputed as
`has_ram && (value & 0xf == 0xa)`. -/
lemma Mbc1Rom.write_pres (c : Mbc1Rom) (a : Addr) (value : Nat)
    (c2 : Mbc1Rom) (hw : c.write a value = some c2) :
    c2.has_ram = c.has_ram ∧
    (c2.ram_enable = c.ram_enable ∨
      c2.ram_enable = (c.has_ram && (value &&& 0xf == 0xa))) := by
  unfold Mbc1Rom.write at hw
  split_ifs at hw
  all_goals first
    | (cases hw <;>
        first
          | exact ⟨rfl, Or.inr rfl⟩
          | exact ⟨rfl, Or.inl rfl⟩)
    | (simp only [Option.bind_eq_some, Option.map_eq_some'] at hw
       obtain ⟨a2, -, m, -, hc2⟩ := hw
       subst hc2
       exact ⟨rfl, Or.inl rfl⟩)

/-- C9: the predicate `ram_enable → has_ram` is preserved by every MBC1
write, and under it the read path's check of `ram_enable` alone is the same
test as `has_ram && ram_enable`. -/
theorem mbc1_ram_enable_invariant (c : Mbc1Rom) (hc : c.ramConsistent) :
    (∀ a value c2, c.write a value = some c2 → c2.ramConsistent) ∧
    (c.has_ram && c.ram_enable) = c.ram_enable := by
  constructor
  · intro a value c2 hw
    obtain ⟨hhr, hre⟩ := Mbc1Rom.write_pres c a value c2 hw
    intro he
    rcases hre with hre | hre
    · rw [hhr]
      exact hc (hre ▸ he)
    · rw [hre] at he
      rw [hhr]
      exact (Bool.and_eq_true _ _).mp he |>.1
  · cases hre : c.ram_enable
    · simp
    · simp [hc hre]

/-- Witness for C9 on the sample cartridge and a RAM-enable write. -/
theorem mbc1_ram_enable_invariant_witness :
    sampleCart.ramConsistent ∧
    (sampleCart.has_ram && sampleCart.ram_enable) = sampleCart.ram_enable ∧
    (∀ c2, sampleCart.write (Addr.ofRaw 0) 0x0a = some c2 → c2.ramConsistent) := by
  have hrc : sampleCart.ramConsistent := by
    intro h
    simp [sampleCart] at h
  have h := mbc1_ram_enable_invariant sampleCart hrc
  exact ⟨hrc, h.2, fun c2 hw => h.1 _ _ _ hw⟩

/-- C5: with `has_ram = false`, any write to the RAM-enable range
0x0000–0x1fff leaves `ram_enable` false, after which reads of
0x8000–0x9fff return 0 and writes there leave every RAM bank unchanged. -/
theorem mbc1_no_ram_gating (c : Mbc1Rom) (h : c.has_ram = false) (a : Addr)
    (value : Nat) (ha : a.relative ≤ 0x1fff) :
    ∃ c2, c.write a value = some c2 ∧ c2.ram_enable = false ∧
      ∀ a2 v2, 0x8000 ≤ a2.relative → a2.relative ≤ 0x9fff →
        c2.read a2 = some 0 ∧
        ∃ c3, c2.write a2 v2 = some c3 ∧ c3.ram_banks = c2.ram_banks := by
  refine ⟨{ c with ram_enable := c.has_ram && (value &&& 0xf == 0xa) }, ?_, ?_, ?_⟩
  · simp [Mbc1Rom.write, ha]
  · simp [h]
  · intro a2 v2 hlo hhi
    have g1 : ¬(a2.relative ≤ 0x3fff) := by omega
    have g2 : ¬(a2.relative ≤ 0x7fff) := by omega
    have g3 : ¬(a2.relative ≤ 0x1fff) := by omega
    have g4 : ¬(a2.relative ≤ 0x5fff) := by omega
    constructor
    · simp [Mbc1Rom.read, g1, g2, hhi, h]
    · refine ⟨_, ?_, rfl⟩
      simp [Mbc1Rom.write, g1, g2, g3, g4, hhi, h]

/-- Witness for C5: a RAM-enable attempt with 0x0a on a RAM-less sample
cartridge. -/
theorem mbc1_no_ram_gating_witness :
    { sampleCart with has_ram := false }.has_ram = false ∧
    (Addr.ofRaw 0).relative ≤ 0x1fff ∧
    ∃ c2, { sampleCart with has_ram := false }.write (Addr.ofRaw 0) 0x0a = some c2 ∧
      c2.ram_enable = false ∧
      ∀ a2 v2, 0x8000 ≤ a2.relative → a2.relative ≤ 0x9fff →
        c2.read a2 = some 0 ∧
        ∃ c3, c2.write a2 v2 = some c3 ∧ c3.ram_banks = c2.ram_banks :=
  ⟨by decide, by decide,
    mbc1_no_ram_gating { sampleCart with has_ram := false } (by decide)
      (Addr.ofRaw 0) 0x0a (by decide)⟩

/-- Evaluation of `Addr.offset_by` when the shift is in range. -/
lemma offset_some (a : Addr) (shift : Nat) (h : shift ≤ a.relative) :
    a.offset_by shift = some ⟨a.raw, a.relative - shift⟩ := by
  unfold Addr.offset_by
  rw [if_pos h]

/-- Evaluation of `bytesRead` at an in-range index. -/
lemma bytesRead_mk (N : Nat) (f : Nat → Nat) (raw o : Nat) (h : o < N) :
    bytesRead N f ⟨raw, o⟩ = some (f o) := by
  unfold bytesRead
  rw [if_pos (show (Addr.index ⟨raw, o⟩) < N from h)]
  rfl

/-- Unfolding equation for the read-only wrapper read, stated as a lemma so
it can be applied by rewriting. -/
lemma readOnly_read_eq {σ : Type} (innerRead : σ → Addr → Option Nat)
    (s : σ) (a : Addr) :
    ReadOnly.read innerRead s a = innerRead s a := rfl

/-- Evaluation of `bytesWrite` at an in-range index. -/
lemma bytesWrite_mk (N : Nat) (f : Nat → Nat) (raw o value : Nat) (h : o < N) :
    bytesWrite N f ⟨raw, o⟩ value = some (Function.update f o value) := by
  unfold bytesWrite
  rw [if_pos (show (Addr.index ⟨raw, o⟩) < N from h)]
  rfl

/-- Arithmetic fact: a 2-bit bank set shifted left by 5 is unchanged by the
u8 truncation. -/
lemma bankIdx_small : ∀ b < 4, (b <<< 5) % 256 = b <<< 5 := by decide

/-- Arithmetic fact: a 2-bit bank set shifted left by 5, combined with a
5-bit bank number, stays below 128. -/
lemma bankIdx_lt : ∀ b < 4, ∀ r < 32, ((b <<< 5) ||| r) < 128 := by decide

/-- Sample MBC1 cartridge in RAM mode with `bank_set = 2` and RAM enabled;
RAM banks store their own bank index. -/
def sampleCartMux : Mbc1Rom :=
  { rom_banks := fun bank off => (bank + off) % 256
  , ram_banks := fun bank _ => bank
  , has_ram := true
  , ram_enable := true
  , rom_bank := 1
  , bank_set := 2
  , ram_mode := true }

/-- C3: a read at 0x4000–0x7fff returns the byte of effective ROM bank
`(high_order << 5) | rom_bank` with `high_order = 0` in RAM mode and
`bank_set` otherwise, and a read at 0x8000–0x9fff with RAM enabled returns
the byte of RAM bank `bank_set` in RAM mode and bank 0 otherwise. -/
theorem mbc1_banked_read (c : Mbc1Rom) (h1 : c.rom_bank < 32)
    (h2 : c.bank_set < 4) (a : Addr) :
    (0x4000 ≤ a.relative → a.relative ≤ 0x7fff →
      c.read a = some (c.rom_banks
        (((if c.ram_mode then 0 else c.bank_set) <<< 5) ||| c.rom_bank)
        (a.relative - 0x4000))) ∧
    (0x8000 ≤ a.relative → a.relative ≤ 0x9fff → c.ram_enable = true →
      c.read a = some (c.ram_banks (if c.ram_mode then c.bank_set else 0)
        (a.relative - 0x8000))) := by
  have hidx : c.romBankIdx
      = ((if c.ram_mode then 0 else c.bank_set) <<< 5) ||| c.rom_bank := by
    simp only [Mbc1Rom.romBankIdx]
    cases hm : c.ram_mode
    · simp only [Bool.false_eq_true, if_false]
      rw [bankIdx_small c.bank_set h2]
    · simp
  have hlt : c.romBankIdx < 128 := by
    rw [hidx]
    cases hm : c.ram_mode
    · simp only [Bool.false_eq_true, if_false]
      exact bankIdx_lt c.bank_set h2 c.rom_bank h1
    · simp only [if_true]
      exact bankIdx_lt 0 (by norm_num) c.rom_bank h1
  constructor
  · intro hlo hhi
    have g1 : ¬(a.relative ≤ 0x3fff) := by omega
    rw [← hidx]
    unfold Mbc1Rom.read
    rw [if_neg g1, if_pos hhi, if_pos hlt, offset_some a 0x4000 hlo,
      Option.some_bind, readOnly_read_eq, bytesRead_mk 16384 _ _ _ (by omega)]
  · intro hlo hhi hen
    have g1 : ¬(a.relative ≤ 0x3fff) := by omega
    have g2 : ¬(a.relative ≤ 0x7fff) := by omega
    have hfold : c.ramBankIdx = if c.ram_mode = true then c.bank_set else 0 := rfl
    have hridx : c.ramBankIdx < 4 := by
      rw [hfold]
      split
      · exact h2
      · norm_num
    rw [← hfold]
    unfold Mbc1Rom.read
    rw [if_neg g1, if_neg g2, if_pos hhi, if_pos hen, if_pos hridx,
      offset_some a 0x8000 hlo, Option.some_bind,
      bytesRead_mk 8192 _ _ _ (by omega)]

/-- Witness for C3: in RAM mode with `bank_set = 2`, a ROM read at 0x4000
uses bank 1 (high bits forced to 0) and a RAM read at 0x8000 uses RAM
bank 2. -/
theorem mbc1_banked_read_witness :
    sampleCartMux.rom_bank < 32 ∧ sampleCartMux.bank_set < 4 ∧
    sampleCartMux.read (Addr.ofRaw 0x4000) = some 1 ∧
    sampleCartMux.read (Addr.ofRaw 0x8000) = some 2 := by
  refine ⟨by decide, by decide, ?_, ?_⟩
  · exact ((mbc1_banked_read sampleCartMux (by decide) (by decide)
      (Addr.ofRaw 0x4000)).1 (by decide) (by decide)).trans (by decide)
  · exact ((mbc1_banked_read sampleCartMux (by decide) (by decide)
      (Addr.ofRaw 0x8000)).2 (by decide) (by decide) (by decide)).trans (by decide)

/-- Arithmetic fact: a multiple of 32 below 256 combined with a nonzero
5-bit value is never one of the unreachable bank numbers 0, 32, 64, 96. -/
lemma effBankMod : ∀ k < 8, ∀ r < 32, 1 ≤ r →
    (32 * k ||| r) ≠ 0 ∧ (32 * k ||| r) ≠ 32 ∧
    (32 * k ||| r) ≠ 64 ∧ (32 * k ||| r) ≠ 96 := by decide

/-- C4: a write to 0x2000–0x3fff sets `rom_bank` to `max(value & 0x1f, 1)`,
so afterwards `rom_bank` is in 1..=31 and the effective ROM bank index is
never 0, 32, 64 or 96. -/
theorem mbc1_rom_bank_write (c : Mbc1Rom) (a : Addr)
    (value : Nat) (ha1 : 0x2000 ≤ a.relative) (ha2 : a.relative ≤ 0x3fff) :
    ∃ c2, c.write a value = some c2 ∧
      c2.rom_bank = max (value &&& 0x1f) 1 ∧
      1 ≤ c2.rom_bank ∧ c2.rom_bank ≤ 31 ∧
      c2.romBankIdx ≠ 0 ∧ c2.romBankIdx ≠ 32 ∧
      c2.romBankIdx ≠ 64 ∧ c2.romBankIdx ≠ 96 := by
  have g1 : ¬(a.relative ≤ 0x1fff) := by omega
  have hand : value &&& 0x1f ≤ 31 := Nat.and_le_right
  have hr1 : 1 ≤ max (value &&& 0x1f) 1 := Nat.le_max_right _ 1
  have hr2 : max (value &&& 0x1f) 1 ≤ 31 := Nat.max_le.mpr ⟨hand, by norm_num⟩
  have hmain : ({ c with rom_bank := max (value &&& 0x1f) 1 } : Mbc1Rom).romBankIdx ≠ 0 ∧
      ({ c with rom_bank := max (value &&& 0x1f) 1 } : Mbc1Rom).romBankIdx ≠ 32 ∧
      ({ c with rom_bank := max (value &&& 0x1f) 1 } : Mbc1Rom).romBankIdx ≠ 64 ∧
      ({ c with rom_bank := max (value &&& 0x1f) 1 } : Mbc1Rom).romBankIdx ≠ 96 := by
    simp only [Mbc1Rom.romBankIdx]
    cases hm : c.ram_mode
    · simp only [Bool.false_eq_true, if_false]
      have hmod : (c.bank_set <<< 5) % 256 = 32 * (c.bank_set % 8) := by
        rw [Nat.shiftLeft_eq]
        show c.bank_set * 32 % 256 = 32 * (c.bank_set % 8)
        omega
      rw [hmod]
      exact effBankMod (c.bank_set % 8) (Nat.mod_lt _ (by norm_num)) _ (by omega) hr1
    · simp only [if_true, Nat.zero_or]
      exact ⟨by omega, by omega, by omega, by omega⟩
  refine ⟨{ c with rom_bank := max (value &&& 0x1f) 1 }, ?_, rfl, hr1, hr2,
    hmain.1, hmain.2.1, hmain.2.2.1, hmain.2.2.2⟩
  simp [Mbc1Rom.write, g1, ha2]

/-- Witness for C4: writing 0x05 to 0x2000 selects bank 5 (read of 0x4000
returns byte 0 of bank 5), and writing 0x00 yields bank 1. -/
theorem mbc1_rom_bank_write_witness :
    0x2000 ≤ (Addr.ofRaw 0x2000).relative ∧
    (Addr.ofRaw 0x2000).relative ≤ 0x3fff ∧
    (∃ c2, sampleCart.write (Addr.ofRaw 0x2000) 0x05 = some c2 ∧
      c2.rom_bank = max (0x05 &&& 0x1f) 1 ∧ 1 ≤ c2.rom_bank ∧ c2.rom_bank ≤ 31 ∧
      c2.romBankIdx ≠ 0 ∧ c2.romBankIdx ≠ 32 ∧
      c2.romBankIdx ≠ 64 ∧ c2.romBankIdx ≠ 96) ∧
    (sampleCart.write (Addr.ofRaw 0x2000) 0x05).bind
      (fun c2 => c2.read (Addr.ofRaw 0x4000)) = some 5 ∧
    (sampleCart.write (Addr.ofRaw 0x2000) 0x00).bind
      (fun c2 => some c2.rom_bank) = some 1 :=
  ⟨by decide, by decide,
    mbc1_rom_bank_write sampleCart (Addr.ofRaw 0x2000) 0x05
      (by decide) (by decide),
    by decide, by decide⟩

/-- Writes to the IO block can only keep the latch off: starting from a
disabled bios, no write re-enables it. -/
lemma io_write_bios_off (io : MemMappedIo) (h : io.bios_enabled = false)
    (a : Addr) (value : Nat) (io2 : MemMappedIo)
    (hw : io.write a value = some io2) : io2.bios_enabled = false := by
  unfold MemMappedIo.write at hw
  split_ifs at hw <;> cases hw <;> first | rfl | exact h

/-- Every decoder write preserves a disabled bios latch. -/
lemma gbmmu_write_bios_off (s : GbMmu) (h : s.io.bios_enabled = false)
    (a : Addr) (value : Nat) (s2 : GbMmu) (hw : s.write a value = some s2) :
    s2.io.bios_enabled = false := by
  unfold GbMmu.write at hw
  by_cases h1 : a.relative ≠ a.raw
  · rw [if_pos h1] at hw
    exact Option.noConfusion hw
  rw [if_neg h1] at hw
  by_cases h2 : a.relative ≤ 0xff ∧ s.io.bios_enabled = true
  · exact absurd h2.2 (by simp [h])
  rw [if_neg h2] at hw
  by_cases h3 : a.relative ≤ 0x7fff
  · rw [if_pos h3] at hw
    obtain ⟨c, -, hcEq⟩ := Option.map_eq_some'.mp hw
    subst hcEq
    exact h
  rw [if_neg h3] at hw
  by_cases h4 : a.relative ≤ 0x9fff
  · rw [if_pos h4] at hw
    obtain ⟨m, -, hmEq⟩ := Option.map_eq_some'.mp hw
    subst hmEq
    exact h
  rw [if_neg h4] at hw
  by_cases h5 : a.relative ≤ 0xbfff
  · rw [if_pos h5] at hw
    obtain ⟨c, -, hcEq⟩ := Option.map_eq_some'.mp hw
    subst hcEq
    exact h
  rw [if_neg h5] at hw
  by_cases h6 : a.relative ≤ 0xdfff
  · rw [if_pos h6] at hw
    obtain ⟨m, -, hmEq⟩ := Option.map_eq_some'.mp hw
    subst hmEq
    exact h
  rw [if_neg h6] at hw
  by_cases h7 : a.relative ≤ 0xfdff
  · rw [if_pos h7] at hw
    obtain ⟨m, -, hmEq⟩ := Option.map_eq_some'.mp hw
    subst hmEq
    exact h
  rw [if_neg h7] at hw
  by_cases h8 : a.relative ≤ 0xfe9f
  · rw [if_pos h8] at hw
    obtain ⟨m, -, hmEq⟩ := Option.map_eq_some'.mp hw
    subst hmEq
    exact h
  rw [if_neg h8] at hw
  by_cases h9 : a.relative ≤ 0xfeff
  · rw [if_pos h9] at hw
    cases hw
    exact h
  rw [if_neg h9] at hw
  by_cases h10 : a.relative ≤ 0xff7f
  · rw [if_pos h10] at hw
    obtain ⟨io2, hbind, hioEq⟩ := Option.map_eq_some'.mp hw
    obtain ⟨a2, -, hw2⟩ := Option.bind_eq_some.mp hbind
    subst hioEq
    exact io_write_bios_off s.io h a2 value io2 hw2
  rw [if_neg h10] at hw
  by_cases h11 : a.relative ≤ 0xfffe
  · rw [if_pos h11] at hw
    obtain ⟨m, -, hmEq⟩ := Option.map_eq_some'.mp hw
    subst hmEq
    exact h
  rw [if_neg h11] at hw
  by_cases h12 : a.relative = 0xffff
  · rw [if_pos h12] at hw
    cases hw
    exact h
  rw [if_neg h12] at hw
  exact Option.noConfusion hw

/-- A disabled bios latch survives any sequence of decoder writes. -/
lemma writeMany_bios_off (ops : List (Nat × Nat)) : ∀ (s : GbMmu),
    s.io.bios_enabled = false → ∀ s2, s.writeMany ops = some s2 →
      s2.io.bios_enabled = false := by
  induction ops with
  | nil =>
      intro s h s2 hw
      cases hw
      exact h
  | cons p rest ih =>
      intro s h s2 hw
      obtain ⟨pa, pv⟩ := p
      simp only [GbMmu.writeMany, Option.bind_eq_some] at hw
      obtain ⟨s3, hw1, hw2⟩ := hw
      exact ih s3 (gbmmu_write_bios_off s h _ _ s3 hw1) s2 hw2

/-- With the bios latch off, reads of 0x0000–0x00ff come from the
cartridge. -/
lemma gbmmu_read_cart_when_off (s : GbMmu) (h : s.io.bios_enabled = false)
    (a : Nat) (ha : a ≤ 0xff) :
    s.read (Addr.ofRaw a) = s.cart.read (Addr.ofRaw a) := by
  simp [GbMmu.read, Addr.ofRaw, h, show a ≤ 0x7fff by omega]

/-- C2: on a fresh decoder, reads of 0x0000–0x00ff return bios content;
writing any value with bit 0 set to raw 0xff50 clears the latch, after
which those reads return cartridge content; and once off, no sequence of
writes can ever turn the latch back on. -/
theorem gbmmu_bios_overlay (bios : BiosRom) (cart : Cartridge) :
    (∀ a, a ≤ 0xff →
      (GbMmu.new bios cart).read (Addr.ofRaw a) = some (bios a)) ∧
    (∀ (s : GbMmu) (value : Nat), value &&& 1 = 1 →
      s.write (Addr.ofRaw 0xff50) value = some { s with io := ⟨false⟩ }) ∧
    (∀ s : GbMmu, s.io.bios_enabled = false → ∀ a, a ≤ 0xff →
      s.read (Addr.ofRaw a) = s.cart.read (Addr.ofRaw a)) ∧
    (∀ s : GbMmu, s.io.bios_enabled = false → ∀ ops s2,
      s.writeMany ops = some s2 → s2.io.bios_enabled = false ∧
        ∀ a, a ≤ 0xff →
          s2.read (Addr.ofRaw a) = s2.cart.read (Addr.ofRaw a)) := by
  refine ⟨?_, ?_, ?_, ?_⟩
  · intro a ha
    simp [GbMmu.read, GbMmu.new, MemMappedIo.new, BiosRom.read, ReadOnly.read,
      bytesRead, Addr.ofRaw, Addr.index, ha, show a < 0x100 by omega]
  · intro s value hv
    simp [GbMmu.write, Addr.ofRaw, Addr.offset_by, Addr.index,
      MemMappedIo.write, hv]
  · intro s h a ha
    exact gbmmu_read_cart_when_off s h a ha
  · intro s h ops s2 hw
    have h2 := writeMany_bios_off ops s h s2 hw
    exact ⟨h2, fun a ha => gbmmu_read_cart_when_off s2 h2 a ha⟩

/-- Witness for C2 on the sample decoder: bios read before, latch write,
cartridge read after, and latch stability under further writes. -/
theorem gbmmu_bios_overlay_witness :
    ((0 : Nat) ≤ 0xff ∧
      (GbMmu.new sampleBios (Cartridge.mbc1 sampleCart)).read (Addr.ofRaw 0)
        = some (sampleBios 0)) ∧
    ((1 : Nat) &&& 1 = 1 ∧
      sampleMmu.write (Addr.ofRaw 0xff50) 1
        = some { sampleMmu with io := ⟨false⟩ }) ∧
    (({ sampleMmu with io := (⟨false⟩ : MemMappedIo) } : GbMmu).io.bios_enabled
        = false ∧
      ({ sampleMmu with io := (⟨false⟩ : MemMappedIo) } : GbMmu).read (Addr.ofRaw 0)
        = ({ sampleMmu with io := (⟨false⟩ : MemMappedIo) } : GbMmu).cart.read
            (Addr.ofRaw 0)) ∧
    ((({ sampleMmu with io := (⟨false⟩ : MemMappedIo) } : GbMmu).writeMany
        [(0, 0x0a), (0xff50, 0)]).map (fun s2 => s2.io.bios_enabled)
      = some false) := by
  have h := gbmmu_bios_overlay sampleBios (Cartridge.mbc1 sampleCart)
  refine ⟨⟨by decide, h.1 0 (by decide)⟩,
    ⟨by decide, h.2.1 sampleMmu 1 (by decide)⟩,
    ⟨by decide, h.2.2.1 _ (by decide) 0 (by decide)⟩,
    by decide⟩

/-- Relative component of a fresh address. -/
lemma ofRaw_relative (raw : Nat) : (Addr.ofRaw raw).relative = raw := rfl

/-- Raw component of a fresh address. -/
lemma ofRaw_raw (raw : Nat) : (Addr.ofRaw raw).raw = raw := rfl

/-- Unfolding equation for the read-only wrapper write. -/
lemma readOnly_write_eq {σ : Type} (innerRead : σ → Addr → Option Nat)
    (s : σ) (a : Addr) (value : Nat) :
    ReadOnly.write innerRead s a value = (innerRead s a).map (fun _ => s) := rfl

/-- Evaluation of `bytesRead` at a fresh in-range address. -/
lemma bytesRead_ofRaw (N : Nat) (f : Nat → Nat) (raw : Nat) (h : raw < N) :
    bytesRead N f (Addr.ofRaw raw) = some (f raw) :=
  bytesRead_mk N f raw raw h

/-- Evaluation of `Addr.offset_by` on a fresh address. -/
lemma offset_ofRaw (raw shift : Nat) (h : shift ≤ raw) :
    (Addr.ofRaw raw).offset_by shift = some ⟨raw, raw - shift⟩ := by
  unfold Addr.ofRaw Addr.offset_by
  rw [if_pos (show shift ≤ (⟨raw, raw⟩ : Addr).relative from h)]

/-- Bound for the effective ROM bank index under the register invariants. -/
lemma romBankIdx_lt_of (c : Mbc1Rom) (h1 : c.rom_bank < 32)
    (h2 : c.bank_set < 4) : c.romBankIdx < 128 := by
  simp only [Mbc1Rom.romBankIdx]
  cases hm : c.ram_mode
  · simp only [Bool.false_eq_true, if_false]
    rw [bankIdx_small c.bank_set h2]
    exact bankIdx_lt c.bank_set h2 c.rom_bank h1
  · simp only [if_true, Nat.zero_or]
    omega

/-- Bound for the effective RAM bank index under the register invariants. -/
lemma ramBankIdx_lt_of (c : Mbc1Rom) (h2 : c.bank_set < 4) :
    c.ramBankIdx < 4 := by
  unfold Mbc1Rom.ramBankIdx
  split
  · exact h2
  · norm_num

/-- Totality of MBC1 reads on the cartridge window, assuming the register
invariants. -/
lemma mbc1_read_total (c : Mbc1Rom) (hWF : c.WF) (a : Addr)
    (ha : a.relative ≤ 0x9fff) : ∃ v, c.read a = some v := by
  unfold Mbc1Rom.read
  by_cases g1 : a.relative ≤ 0x3fff
  · rw [if_pos g1, readOnly_read_eq]
    unfold bytesRead
    rw [if_pos (show Addr.index a < 16384 by unfold Addr.index; omega)]
    exact ⟨_, rfl⟩
  rw [if_neg g1]
  by_cases g2 : a.relative ≤ 0x7fff
  · rw [if_pos g2, if_pos (romBankIdx_lt_of c hWF.2.1 hWF.2.2),
      offset_some a 0x4000 (by omega), Option.some_bind, readOnly_read_eq,
      bytesRead_mk 16384 _ _ _ (by omega)]
    exact ⟨_, rfl⟩
  rw [if_neg g2, if_pos (show a.relative ≤ 0x9fff from ha)]
  by_cases hen : c.ram_enable = true
  · rw [if_pos hen, if_pos (ramBankIdx_lt_of c hWF.2.2),
      offset_some a 0x8000 (by omega), Option.some_bind,
      bytesRead_mk 8192 _ _ _ (by omega)]
    exact ⟨_, rfl⟩
  · rw [if_neg hen]
    exact ⟨0, rfl⟩

/-- Evaluation of a RAM-bank store through the MBC1 write path at a
variable offset. -/
lemma bind_mk_write (f : Nat → Nat) (N raw o value : Nat)
    (g : (Nat → Nat) → Mbc1Rom) (h : o < N) :
    (some (⟨raw, o⟩ : Addr)).bind (fun a2 =>
        (bytesWrite N f a2 value).map g)
      = some (g (Function.update f o value)) := by
  rw [Option.some_bind, bytesWrite_mk N f raw o value h, Option.map_some']

/-- Evaluation of a byte-array store through the decoder write path at a
variable offset. -/
lemma bind_bytesWrite_map {α : Type} (f : Nat → Nat) (N raw o value : Nat)
    (g : (Nat → Nat) → α) (h : o < N) :
    ((some (⟨raw, o⟩ : Addr)).bind (fun a2 => bytesWrite N f a2 value)).map g
      = some (g (Function.update f o value)) := by
  rw [Option.some_bind, bytesWrite_mk N f raw o value h, Option.map_some']

/-- Evaluation of an IO write through the decoder write path. -/
lemma bind_io_write_map {α : Type} (io : MemMappedIo) (raw o value : Nat)
    (g : MemMappedIo → α) (io2 : MemMappedIo)
    (h : io.write ⟨raw, o⟩ value = some io2) :
    ((some (⟨raw, o⟩ : Addr)).bind (fun a2 => io.write a2 value)).map g
      = some (g io2) := by
  rw [Option.some_bind, h, Option.map_some']

/-- Evaluation of a cartridge write through the decoder write path. -/
lemma bind_cart_write_map {α : Type} (c : Cartridge) (raw o value : Nat)
    (g : Cartridge → α) (c2 : Cartridge) (h : c.write ⟨raw, o⟩ value = some c2) :
    ((some (⟨raw, o⟩ : Addr)).bind (fun a2 => c.write a2 value)).map g
      = some (g c2) := by
  rw [Option.some_bind, h, Option.map_some']

/-- Totality of MBC1 writes on the cartridge window, assuming the register
invariants; the invariants are re-established. -/
lemma mbc1_write_total (c : Mbc1Rom) (hWF : c.WF) (a : Addr)
    (ha : a.relative ≤ 0x9fff) (value : Nat) :
    ∃ c2, c.write a value = some c2 ∧ c2.WF := by
  unfold Mbc1Rom.write
  by_cases g1 : a.relative ≤ 0x1fff
  · rw [if_pos g1]
    exact ⟨_, rfl, hWF⟩
  rw [if_neg g1]
  by_cases g2 : a.relative ≤ 0x3fff
  · rw [if_pos g2]
    have hand : value &&& 0x1f ≤ 31 := Nat.and_le_right
    have h31 : max (value &&& 0x1f) 1 ≤ 31 := Nat.max_le.mpr ⟨hand, by norm_num⟩
    refine ⟨_, rfl, ?_, ?_, hWF.2.2⟩
    · show 1 ≤ max (value &&& 0x1f) 1
      exact Nat.le_max_right _ 1
    · show max (value &&& 0x1f) 1 < 32
      exact Nat.lt_of_le_of_lt h31 (by norm_num)
  rw [if_neg g2]
  by_cases g3 : a.relative ≤ 0x5fff
  · rw [if_pos g3]
    have hand : value &&& 0x3 ≤ 3 := Nat.and_le_right
    refine ⟨_, rfl, hWF.1, hWF.2.1, ?_⟩
    show value &&& 0x3 < 4
    omega
  rw [if_neg g3]
  by_cases g4 : a.relative ≤ 0x7fff
  · rw [if_pos g4]
    exact ⟨_, rfl, hWF⟩
  rw [if_neg g4, if_pos (show a.relative ≤ 0x9fff from ha)]
  by_cases g5 : (c.has_ram && c.ram_enable) = true
  · rw [if_pos g5, if_pos (ramBankIdx_lt_of c hWF.2.2),
      offset_some a 0x8000 (by omega),
      bind_mk_write _ 8192 _ _ value _ (by omega)]
    exact ⟨_, rfl, hWF⟩
  · rw [if_neg g5]
    exact ⟨_, rfl, hWF⟩

/-- Totality of cartridge reads on the cartridge window. -/
lemma cart_read_total (c : Cartridge) (hWF : c.WF) (a : Addr)
    (ha : a.relative ≤ 0x9fff) : ∃ v, c.read a = some v := by
  cases c with
  | noCart =>
      refine ⟨0, ?_⟩
      simp only [Cartridge.read]
      rw [if_pos (show Addr.index a < 0x10000 by unfold Addr.index; omega)]
  | mbc1 m => exact mbc1_read_total m hWF a ha

/-- Totality of cartridge writes on the cartridge window; well-formedness
is preserved. -/
lemma cart_write_total (c : Cartridge) (hWF : c.WF) (a : Addr)
    (ha : a.relative ≤ 0x9fff) (value : Nat) :
    ∃ c2, c.write a value = some c2 ∧ c2.WF := by
  cases c with
  | noCart =>
      refine ⟨Cartridge.noCart, ?_, trivial⟩
      simp only [Cartridge.write]
      rw [if_pos (show Addr.index a < 0x10000 by unfold Addr.index; omega)]
  | mbc1 m =>
      obtain ⟨m2, hm2, hm2WF⟩ := mbc1_write_total m hWF a ha value
      refine ⟨Cartridge.mbc1 m2, ?_, hm2WF⟩
      simp only [Cartridge.write]
      rw [hm2, Option.map_some']

/-- Totality of IO block reads on its window. -/
lemma io_read_total (io : MemMappedIo) (a : Addr) (ha : a.relative ≤ 0x7f) :
    ∃ v, io.read a = some v := by
  unfold MemMappedIo.read
  by_cases g1 : a.relative ≤ 0x4f
  · rw [if_pos g1]
    exact ⟨_, rfl⟩
  rw [if_neg g1]
  by_cases g2 : a.relative = 0x50
  · rw [if_pos g2]
    exact ⟨_, rfl⟩
  rw [if_neg g2, if_pos (show a.relative ≤ 0x7f from ha)]
  exact ⟨_, rfl⟩

/-- Totality of IO block writes on its window. -/
lemma io_write_total (io : MemMappedIo) (a : Addr) (ha : a.relative ≤ 0x7f)
    (value : Nat) : ∃ io2, io.write a value = some io2 := by
  unfold MemMappedIo.write
  by_cases g1 : a.relative ≤ 0x4f
  · rw [if_pos g1]
    exact ⟨_, rfl⟩
  rw [if_neg g1]
  by_cases g2 : a.relative = 0x50
  · rw [if_pos g2]
    exact ⟨_, rfl⟩
  rw [if_neg g2, if_pos (show a.relative ≤ 0x7f from ha)]
  exact ⟨_, rfl⟩

/-- C1: for every well-formed decoder state and every raw 16-bit address,
the dispatch is total: the read returns a byte and the write returns a new
state, with no fatal assertion anywhere in the decoder or the dispatched
device, and the write preserves well-formedness. -/
theorem gbmmu_dispatch_total (s : GbMmu) (hWF : s.WF) (raw : Nat)
    (hraw : raw < 0x10000) (value : Nat) :
    (∃ v, s.read (Addr.ofRaw raw) = some v) ∧
    (∃ s2, s.write (Addr.ofRaw raw) value = some s2 ∧ s2.WF) := by
  have e1 : (Addr.ofRaw raw).relative = raw := rfl
  have e2 : (Addr.ofRaw raw).raw = raw := rfl
  constructor
  · unfold GbMmu.read
    rw [e1, e2, if_neg (show ¬(raw ≠ raw) by simp)]
    by_cases b1 : raw ≤ 0xff ∧ s.io.bios_enabled = true
    · rw [if_pos b1]
      have hb : raw < 0x100 := Nat.lt_of_le_of_lt b1.1 (by norm_num)
      unfold BiosRom.read
      rw [readOnly_read_eq, bytesRead_ofRaw 0x100 _ _ hb]
      exact ⟨_, rfl⟩
    rw [if_neg b1]
    by_cases b2 : raw ≤ 0x7fff
    · rw [if_pos b2]
      exact cart_read_total s.cart hWF (Addr.ofRaw raw) (by rw [e1]; omega)
    rw [if_neg b2]
    by_cases b3 : raw ≤ 0x9fff
    · rw [if_pos b3, offset_ofRaw raw 0x8000 (by omega), Option.some_bind,
        bytesRead_mk 0x2000 _ _ _ (by omega)]
      exact ⟨_, rfl⟩
    rw [if_neg b3]
    by_cases b4 : raw ≤ 0xbfff
    · rw [if_pos b4, offset_ofRaw raw 0x2000 (by omega), Option.some_bind]
      exact cart_read_total s.cart hWF ⟨raw, raw - 0x2000⟩
        (by show raw - 0x2000 ≤ 0x9fff; omega)
    rw [if_neg b4]
    by_cases b5 : raw ≤ 0xdfff
    · rw [if_pos b5, offset_ofRaw raw 0xc000 (by omega), Option.some_bind,
        bytesRead_mk 0x2000 _ _ _ (by omega)]
      exact ⟨_, rfl⟩
    rw [if_neg b5]
    by_cases b6 : raw ≤ 0xfdff
    · rw [if_pos b6, offset_ofRaw raw 0xe000 (by omega), Option.some_bind,
        bytesRead_mk 0x2000 _ _ _ (by omega)]
      exact ⟨_, rfl⟩
    rw [if_neg b6]
    by_cases b7 : raw ≤ 0xfe9f
    · rw [if_pos b7, offset_ofRaw raw 0xfe00 (by omega), Option.some_bind,
        bytesRead_mk 160 _ _ _ (by omega)]
      exact ⟨_, rfl⟩
    rw [if_neg b7]
    by_cases b8 : raw ≤ 0xfeff
    · rw [if_pos b8]
      exact ⟨0, rfl⟩
    rw [if_neg b8]
    by_cases b9 : raw ≤ 0xff7f
    · rw [if_pos b9, offset_ofRaw raw 0xff00 (by omega), Option.some_bind]
      exact io_read_total s.io ⟨raw, raw - 0xff00⟩
        (by show raw - 0xff00 ≤ 0x7f; omega)
    rw [if_neg b9]
    by_cases b10 : raw ≤ 0xfffe
    · rw [if_pos b10, offset_ofRaw raw 0xff80 (by omega), Option.some_bind,
        bytesRead_mk 127 _ _ _ (by omega)]
      exact ⟨_, rfl⟩
    rw [if_neg b10, if_pos (show raw = 0xffff by omega)]
    exact ⟨0, rfl⟩
  · unfold GbMmu.write
    rw [e1, e2, if_neg (show ¬(raw ≠ raw) by simp)]
    by_cases b1 : raw ≤ 0xff ∧ s.io.bios_enabled = true
    · rw [if_pos b1]
      have hb : raw < 0x100 := Nat.lt_of_le_of_lt b1.1 (by norm_num)
      unfold BiosRom.write
      rw [readOnly_write_eq, bytesRead_ofRaw 0x100 _ _ hb, Option.map_some',
        Option.map_some']
      exact ⟨_, rfl, hWF⟩
    rw [if_neg b1]
    by_cases b2 : raw ≤ 0x7fff
    · rw [if_pos b2]
      obtain ⟨c2, hc2, hc2WF⟩ := cart_write_total s.cart hWF (Addr.ofRaw raw)
        (by rw [e1]; omega) value
      rw [hc2, Option.map_some']
      exact ⟨_, rfl, hc2WF⟩
    rw [if_neg b2]
    by_cases b3 : raw ≤ 0x9fff
    · rw [if_pos b3, offset_ofRaw raw 0x8000 (by omega),
        bind_bytesWrite_map _ 0x2000 _ _ value _ (by omega)]
      exact ⟨_, rfl, hWF⟩
    rw [if_neg b3]
    by_cases b4 : raw ≤ 0xbfff
    · rw [if_pos b4, offset_ofRaw raw 0x2000 (by omega)]
      obtain ⟨c2, hc2, hc2WF⟩ := cart_write_total s.cart hWF ⟨raw, raw - 0x2000⟩
        (by show raw - 0x2000 ≤ 0x9fff; omega) value
      rw [bind_cart_write_map s.cart _ _ value _ c2 hc2]
      exact ⟨_, rfl, hc2WF⟩
    rw [if_neg b4]
    by_cases b5 : raw ≤ 0xdfff
    · rw [if_pos b5, offset_ofRaw raw 0xc000 (by omega),
        bind_bytesWrite_map _ 0x2000 _ _ value _ (by omega)]
      exact ⟨_, rfl, hWF⟩
    rw [if_neg b5]
    by_cases b6 : raw ≤ 0xfdff
    · rw [if_pos b6, offset_ofRaw raw 0xe000 (by omega),
        bind_bytesWrite_map _ 0x2000 _ _ value _ (by omega)]
      exact ⟨_, rfl, hWF⟩
    rw [if_neg b6]
    by_cases b7 : raw ≤ 0xfe9f
    · rw [if_pos b7, offset_ofRaw raw 0xfe00 (by omega),
        bind_bytesWrite_map _ 160 _ _ value _ (by omega)]
      exact ⟨_, rfl, hWF⟩
    rw [if_neg b7]
    by_cases b8 : raw ≤ 0xfeff
    · rw [if_pos b8]
      exact ⟨s, rfl, hWF⟩
    rw [if_neg b8]
    by_cases b9 : raw ≤ 0xff7f
    · obtain ⟨io2, hio2⟩ := io_write_total s.io ⟨raw, raw - 0xff00⟩
        (by show raw - 0xff00 ≤ 0x7f; omega) value
      rw [if_pos b9, offset_ofRaw raw 0xff00 (by omega),
        bind_io_write_map s.io _ _ value _ io2 hio2]
      exact ⟨_, rfl, hWF⟩
    rw [if_neg b9]
    by_cases b10 : raw ≤ 0xfffe
    · rw [if_pos b10, offset_ofRaw raw 0xff80 (by omega),
        bind_bytesWrite_map _ 127 _ _ value _ (by omega)]
      exact ⟨_, rfl, hWF⟩
    rw [if_neg b10, if_pos (show raw = 0xffff by omega)]
    exact ⟨s, rfl, hWF⟩

/-- Witness for C1 on the sample decoder at address 0x4000. -/
theorem gbmmu_dispatch_total_witness :
    GbMmu.WF sampleMmu ∧ 0x4000 < 0x10000 ∧
    ((∃ v, sampleMmu.read (Addr.ofRaw 0x4000) = some v) ∧
      (∃ s2, sampleMmu.write (Addr.ofRaw 0x4000) 0x0a = some s2 ∧ s2.WF)) := by
  have hwf : GbMmu.WF sampleMmu := by
    show 1 ≤ 1 ∧ 1 < 32 ∧ 0 < 4
    decide
  exact ⟨hwf, by decide,
    gbmmu_dispatch_total sampleMmu hwf 0x4000 (by decide) 0x0a⟩
